import Mathlib

/-!
Shallow embedding of the numeric content of `helpers/helper_functions.py`:
the spectral magnitude computation `find_fft`, together with models of the
renderer-facing behaviour of `plot_timeseries` and `plot_response`.

Floating-point values are idealised as real numbers extended with the special
values NaN and plus/minus infinity that the numeric library produces at
division by zero and at the logarithm of zero; exceptions raised by the
numeric library are modelled with `Except`.
-/

namespace HelperFunctions

/-- Special float results: NaN, minus infinity, plus infinity, or a finite real. -/
inductive DbVal where
  | nan : DbVal
  | neginf : DbVal
  | posinf : DbVal
  | fin : ℝ → DbVal

/-- Exceptions raised by the numeric library during the modelled calls. -/
inductive PyError where
  | valueError : PyError
  | indexError : PyError
deriving DecidableEq

/-- Sizing step of `np.fft.fft(signal, n)`: truncate the input to `n` samples
or zero-pad it up to `n` samples. -/
def padTrunc (s : List ℂ) (n : ℕ) : List ℂ :=
  s.take n ++ List.replicate (n - s.length) 0

/-- One coefficient of the discrete Fourier transform of `x`. -/
noncomputable def dftEntry (x : List ℂ) (k : ℕ) : ℂ :=
  ∑ j ∈ Finset.range x.length,
    x.getD j 0 *
      Complex.exp (-(2 * (Real.pi : ℂ) * Complex.I * (k : ℂ) * (j : ℂ)) / (x.length : ℂ))

/-- Discrete Fourier transform of a list (the transform part of `np.fft.fft`). -/
noncomputable def dft (x : List ℂ) : List ℂ :=
  (List.range x.length).map (dftEntry x)

/-- Embedding of `np.fft.fftshift`: roll the list so that the entry at index 0
moves to index `length / 2` (swap the two halves). -/
def fftshift {α : Type} (x : List α) : List α :=
  x.drop (x.length - x.length / 2) ++ x.take (x.length - x.length / 2)

/-- Decibel conversion `10 * log10 (mag / len)` with the special float values
the numeric library produces: at `len = 0` the division `0 / 0` gives NaN and
`positive / 0` gives plus infinity; at `mag = 0` the logarithm gives minus
infinity; the logarithm of a negative number gives NaN. -/
noncomputable def dbOf (mag : ℝ) (len : ℕ) : DbVal :=
  if len = 0 then
    if mag = 0 then .nan else if mag < 0 then .nan else .posinf
  else if mag = 0 then .neginf
  else if mag < 0 then .nan
  else .fin (10 * Real.logb 10 (mag / (len : ℝ)))

/-- Embedding of `find_fft(signal, n_window)`:
`fft = np.fft.fftshift(np.fft.fft(signal, n_window))` followed by
`10 * np.log10(abs(fft) / len(signal))`. `np.fft.fft` raises `ValueError`
when the requested transform length is below one; no other exception is
raised (division by a zero length and logarithm of zero only produce special
float values). -/
noncomputable def find_fft (signal : List ℂ) (n_window : ℤ) : Except PyError (List DbVal) :=
  if n_window < 1 then .error .valueError
  else
    .ok ((fftshift (dft (padTrunc signal n_window.toNat))).map
      (fun c => dbOf (Complex.abs c) signal.length))

/-- Float addition of a real constant to a dB value: NaN and the infinities
absorb the addition. -/
def DbVal.addConst : DbVal → ℝ → DbVal
  | .nan, _ => .nan
  | .neginf, _ => .neginf
  | .posinf, _ => .posinf
  | .fin x, r => .fin (x + r)

/-- Float strict order on dB values: any comparison with NaN is false, minus
infinity is below everything else, plus infinity is above everything else. -/
def DbVal.lt : DbVal → DbVal → Prop
  | .nan, _ => False
  | _, .nan => False
  | .neginf, .neginf => False
  | .neginf, _ => True
  | _, .neginf => False
  | .posinf, _ => False
  | .fin _, .posinf => True
  | .fin a, .fin b => a < b

/-- Zero padding in the spec's words: append zeros up to length `n`. -/
def zeroPad (s : List ℂ) (n : ℕ) : List ℂ :=
  s ++ List.replicate (n - s.length) 0

/-- Modelled from the spec: the `compute_spectrum` pipeline written from the
spec's words. Size the transform to `window_length` (truncate when smaller,
zero-pad when larger), take the DFT, rotate so the zero-frequency component
sits at index `window_length / 2`, take element-wise magnitudes, divide each
by the original sample count, convert to decibels with `10 * log10`, with
minus infinity where the magnitude is exactly zero. -/
noncomputable def compute_spectrum_spec (samples : List ℂ) (window_length : ℕ) : List DbVal :=
  let sized := if window_length ≤ samples.length
    then samples.take window_length
    else samples ++ List.replicate (window_length - samples.length) 0
  let transform := dft sized
  let centered := transform.rotate (window_length - window_length / 2)
  let magnitudes := centered.map Complex.abs
  let normalized := magnitudes.map (fun m => m / (samples.length : ℝ))
  normalized.map (fun m => if m = 0 then DbVal.neginf else DbVal.fin (10 * Real.logb 10 m))

/-- Renderer calls issued by `plot_timeseries`: a solid line, a stem plot, or
a dashed line, each over an x array and a y array. -/
inductive PlotCall where
  | plot : List ℝ → List ℝ → PlotCall
  | stem : List ℝ → List ℝ → PlotCall
  | dash : List ℝ → List ℝ → PlotCall

/-- Body of one iteration of the `plot_timeseries` loop: look up `line[i]`
(IndexError past the end of the style list), dispatch on the style tag, and
read `x[i]` and `y[i]` where a curve is drawn; an unknown tag draws nothing. -/
def tsStep (x y : List (List ℝ)) (line : List String) (i : ℕ) : Except PyError (List PlotCall) :=
  match line.get? i with
  | none => .error .indexError
  | some tag =>
    if tag = "continuous" then
      match y.get? i with
      | none => .error .indexError
      | some yi => .ok [.plot (x.getD i []) yi]
    else if tag = "discrete" then
      match y.get? i with
      | none => .error .indexError
      | some yi => .ok [.stem (x.getD i []) yi]
    else if tag = "dash" then
      match y.get? i with
      | none => .error .indexError
      | some yi => .ok [.dash (x.getD i []) yi]
    else .ok []

/-- Run the `plot_timeseries` loop over the listed indices in order, stopping
at the first exception. -/
def tsRun (x y : List (List ℝ)) (line : List String) : List ℕ → Except PyError (List PlotCall)
  | [] => .ok []
  | i :: rest =>
    match tsStep x y line i with
    | .error e => .error e
    | .ok calls =>
      match tsRun x y line rest with
      | .error e => .error e
      | .ok more => .ok (calls ++ more)

/-- Embedding of `plot_timeseries(title, x, y, line=['continuous'])`: the
figure chrome (title, axis labels, grid, fixed y limits) is presentation
detail; the modelled behaviour is the loop `for i in range(len(x))`
dispatching on `line[i]`. The Python default for `line` is the singleton
list `["continuous"]`. -/
def plot_timeseries (title : String) (x y : List (List ℝ)) (line : List String) :
    Except PyError (List PlotCall) :=
  tsRun x y line (List.range x.length)

/-- Renderer state produced by `plot_response`: the plotted curve and the
axis limits handed to the renderer. -/
structure ResponseRender where
  curve_x : List ℝ
  curve_y : List DbVal
  ylim : ℝ × ℝ
  xlim : ℝ × ℝ

/-- Gain curve value `20 * log10 mag`, with minus infinity at zero magnitude
and NaN below zero. -/
noncomputable def db20 (mag : ℝ) : DbVal :=
  if mag = 0 then .neginf else if mag < 0 then .nan else .fin (20 * Real.logb 10 mag)

/-- Embedding of `plot_response(fs, w, h, title, xlim=None)`: when `xlim` is
`None` it is replaced by `fs / 2`; the curve plotted is `0.5*fs*w/pi` against
`20*log10(abs(h))`, with y limits `(-60, 20)` and x limits `(0, xlim)`. -/
noncomputable def plot_response (fs : ℝ) (w : List ℝ) (h : List ℂ) (xlim : Option ℝ) :
    ResponseRender :=
  let xl := match xlim with
    | none => fs / 2
    | some v => v
  { curve_x := w.map (fun wi => 0.5 * fs * wi / Real.pi)
    curve_y := h.map (fun hi => db20 (Complex.abs hi))
    ylim := (-60, 20)
    xlim := (0, xl) }

lemma length_padTrunc (s : List ℂ) (n : ℕ) : (padTrunc s n).length = n := by
  simp only [padTrunc, List.length_append, List.length_take, List.length_replicate]
  omega

lemma length_dft (x : List ℂ) : (dft x).length = x.length := by
  simp [dft]

lemma length_fftshift {α : Type} (x : List α) : (fftshift x).length = x.length := by
  simp only [fftshift, List.length_append, List.length_drop, List.length_take]
  omega

lemma find_fft_eq_ok (s : List ℂ) (n : ℤ) (h : 1 ≤ n) :
    find_fft s n = .ok ((fftshift (dft (padTrunc s n.toNat))).map
      (fun c => dbOf (Complex.abs c) s.length)) := by
  simp [find_fft, not_lt.mpr h]

lemma getD_replicate_self {α : Type} (m j : ℕ) (a : α) :
    (List.replicate m a).getD j a = a := by
  rcases Nat.lt_or_ge j m with h | h
  · rw [List.getD_eq_getElem _ _ (by simpa using h)]
    simp
  · exact List.getD_eq_default _ _ (by simpa using h)

lemma dftEntry_replicate_zero (m k : ℕ) : dftEntry (List.replicate m (0 : ℂ)) k = 0 := by
  unfold dftEntry
  refine Finset.sum_eq_zero fun j _ => ?_
  rw [getD_replicate_self]
  simp

lemma dft_replicate_zero (m : ℕ) : dft (List.replicate m (0 : ℂ)) = List.replicate m 0 := by
  unfold dft
  refine List.eq_replicate_iff.mpr ⟨by simp, fun b hb => ?_⟩
  rcases List.mem_map.mp hb with ⟨k, _, hk⟩
  rw [← hk, dftEntry_replicate_zero]

lemma mem_fftshift {α : Type} {x : List α} {a : α} (h : a ∈ fftshift x) : a ∈ x := by
  rcases List.mem_append.mp h with h | h
  · exact List.mem_of_mem_drop h
  · exact List.mem_of_mem_take h

lemma fftshift_replicate {α : Type} (m : ℕ) (a : α) :
    fftshift (List.replicate m a) = List.replicate m a := by
  refine List.eq_replicate_iff.mpr ⟨by simp [length_fftshift], fun b hb => ?_⟩
  exact List.eq_of_mem_replicate (mem_fftshift hb)

lemma dbOf_zero_zero : dbOf 0 0 = .nan := by
  simp [dbOf]

lemma dbOf_zero_of_pos_len (len : ℕ) (h : len ≠ 0) : dbOf 0 len = .neginf := by
  simp [dbOf, h]

lemma dbOf_of_pos (mag : ℝ) (len : ℕ) (h1 : 0 < mag) (h2 : len ≠ 0) :
    dbOf mag len = .fin (10 * Real.logb 10 (mag / (len : ℝ))) := by
  simp [dbOf, h2, h1.ne', not_lt.mpr h1.le]

lemma padTrunc_nil (m : ℕ) : padTrunc [] m = List.replicate m 0 := by
  simp [padTrunc]

lemma find_fft_nil (n : ℤ) (hn : 1 ≤ n) :
    find_fft ([] : List ℂ) n = .ok (List.replicate n.toNat DbVal.nan) := by
  rw [find_fft_eq_ok _ _ hn, padTrunc_nil, dft_replicate_zero, fftshift_replicate]
  simp [dbOf_zero_zero]

/-- C1: the claim says `find_fft` fails with `InvalidArgument` exactly when
the samples are empty or the window length is not positive. On the code the
only failure is the FFT library's `ValueError`, raised exactly when the
window length is below one; an empty sample list with a positive window
length does not raise but returns a list of NaN values. -/
theorem c1_error_conditions :
    (∀ (s : List ℂ) (n : ℤ), (∃ e, find_fft s n = .error e) ↔ n < 1) ∧
    (∀ n : ℤ, 1 ≤ n →
      find_fft ([] : List ℂ) n = .ok (List.replicate n.toNat DbVal.nan)) := by
  refine ⟨fun s n => ⟨?_, fun hn => ⟨.valueError, by simp [find_fft, hn]⟩⟩,
    fun n hn => find_fft_nil n hn⟩
  rintro ⟨e, he⟩
  by_contra hn
  rw [find_fft] at he
  simp [hn] at he

/-- C1 witness: `find_fft [1, 2, 3] 0` raises `ValueError` and
`find_fft [] 8` returns eight NaN values without raising. -/
theorem c1_error_conditions_witness :
    (∃ e, find_fft [(1 : ℂ), 2, 3] 0 = .error e) ∧
    find_fft ([] : List ℂ) 8 = .ok (List.replicate 8 DbVal.nan) :=
  ⟨(c1_error_conditions.1 [(1 : ℂ), 2, 3] 0).mpr (by norm_num),
    by simpa using c1_error_conditions.2 8 (by norm_num)⟩

/-- C1 counterexample: `find_fft [] 8` does not raise; it returns normally
with eight NaN entries, refuting the claimed `InvalidArgument` failure on
empty samples. -/
theorem c1_empty_no_error_cex :
    find_fft ([] : List ℂ) 8 = .ok (List.replicate 8 DbVal.nan) := by
  simpa using find_fft_nil 8 (by norm_num)

/-- C2: for every non-empty sample list and positive window length, the
spectrum returned by `find_fft` has exactly `window_length` entries. -/
theorem c2_output_length (s : List ℂ) (n : ℤ) (hs : s ≠ []) (hn : 1 ≤ n) :
    ∃ l, find_fft s n = .ok l ∧ (l.length : ℤ) = n := by
  refine ⟨_, find_fft_eq_ok s n hn, ?_⟩
  rw [List.length_map, length_fftshift, length_dft, length_padTrunc]
  omega

/-- C2 witness: the spectrum of the one-sample list `[1]` with window length
`8` has exactly eight entries. -/
theorem c2_output_length_witness :
    ∃ l, find_fft [(1 : ℂ)] 8 = .ok l ∧ (l.length : ℤ) = 8 :=
  c2_output_length [(1 : ℂ)] 8 (by simp) (by norm_num)

lemma getD_map_zero (f : ℂ → ℂ) (hf : f 0 = 0) (l : List ℂ) (j : ℕ) :
    (l.map f).getD j 0 = f (l.getD j 0) := by
  rcases Nat.lt_or_ge j l.length with h | h
  · rw [List.getD_eq_getElem _ _ (by simpa using h), List.getD_eq_getElem _ _ h]
    simp
  · rw [List.getD_eq_default _ _ (by simpa using h), List.getD_eq_default _ _ h, hf]

lemma padTrunc_map_mul (c : ℂ) (s : List ℂ) (n : ℕ) :
    padTrunc (s.map (fun z => c * z)) n = (padTrunc s n).map (fun z => c * z) := by
  simp [padTrunc, List.map_take, List.map_replicate]

lemma dftEntry_map_mul (c : ℂ) (x : List ℂ) (k : ℕ) :
    dftEntry (x.map (fun z => c * z)) k = c * dftEntry x k := by
  unfold dftEntry
  rw [List.length_map, Finset.mul_sum]
  refine Finset.sum_congr rfl fun j _ => ?_
  rw [getD_map_zero _ (mul_zero c)]
  ring

lemma dft_map_mul (c : ℂ) (x : List ℂ) :
    dft (x.map (fun z => c * z)) = (dft x).map (fun z => c * z) := by
  unfold dft
  rw [List.length_map, List.map_map]
  exact List.map_congr_left fun k _ => dftEntry_map_mul c x k

lemma fftshift_map {α β : Type} (f : α → β) (x : List α) :
    fftshift (x.map f) = (fftshift x).map f := by
  simp [fftshift]

lemma dbOf_mul_of_pos (c m : ℝ) (hc : 0 < c) (hm : 0 ≤ m) (len : ℕ) (hlen : len ≠ 0) :
    dbOf (c * m) len = (dbOf m len).addConst (10 * Real.logb 10 c) := by
  rcases eq_or_lt_of_le hm with hm0 | hmpos
  · rw [← hm0, mul_zero, dbOf_zero_of_pos_len _ hlen]
    rfl
  · rw [dbOf_of_pos _ _ (mul_pos hc hmpos) hlen, dbOf_of_pos _ _ hmpos hlen]
    simp only [DbVal.addConst, DbVal.fin.injEq]
    rw [mul_div_assoc, Real.logb_mul hc.ne'
      (div_ne_zero hmpos.ne' (by exact_mod_cast hlen))]
    ring

/-- C4 (amended): scaling every sample by a positive real `c` shifts every
finite output value by `10 * log10 c` decibels (not `20 * log10 c`), since
the decibel conversion in the code is `10 * log10` of the magnitude, which
scales linearly in `c`; minus-infinity entries stay minus infinity. -/
theorem c4_scaling_amended (s : List ℂ) (n : ℤ) (c : ℝ)
    (hs : s ≠ []) (hn : 1 ≤ n) (hc : 0 < c) :
    ∃ l, find_fft s n = .ok l ∧
      find_fft (s.map (fun z => (c : ℂ) * z)) n =
        .ok (l.map (fun v => v.addConst (10 * Real.logb 10 c))) := by
  have hlen : s.length ≠ 0 := fun h => hs (List.length_eq_zero.mp h)
  refine ⟨_, find_fft_eq_ok s n hn, ?_⟩
  rw [find_fft_eq_ok _ _ hn, padTrunc_map_mul, dft_map_mul, fftshift_map,
    List.map_map, List.map_map, List.length_map]
  refine congrArg Except.ok (List.map_congr_left fun z _ => ?_)
  show dbOf (Complex.abs ((c : ℂ) * z)) s.length =
    (dbOf (Complex.abs z) s.length).addConst (10 * Real.logb 10 c)
  rw [map_mul, Complex.abs_ofReal, abs_of_pos hc]
  exact dbOf_mul_of_pos c (Complex.abs z) hc (Complex.abs.nonneg z) s.length hlen

lemma padTrunc_singleton (z : ℂ) : padTrunc [z] 1 = [z] := by
  simp [padTrunc]

lemma dftEntry_singleton (z : ℂ) : dftEntry [z] 0 = z := by
  unfold dftEntry
  simp

lemma dft_singleton (z : ℂ) : dft [z] = [z] := by
  unfold dft
  rw [show ([z] : List ℂ).length = 1 from rfl, show List.range 1 = [0] from rfl]
  simp [dftEntry_singleton]

lemma fftshift_singleton {α : Type} (a : α) : fftshift [a] = [a] := by
  simp [fftshift]

lemma find_fft_singleton (z : ℂ) :
    find_fft [z] 1 = .ok [dbOf (Complex.abs z) 1] := by
  rw [find_fft_eq_ok _ _ le_rfl]
  rw [show Int.toNat 1 = 1 from rfl, padTrunc_singleton, dft_singleton, fftshift_singleton]
  rfl

/-- C4 counterexample: for the one-sample input `[1]` scaled by `c = 10` with
window length one, the output goes from `0` dB to `10` dB, a shift of
`10 = 10 * log10 10`, not the claimed `20 * log10 10 = 20`. -/
theorem c4_scaling_cex :
    find_fft [(1 : ℂ)] 1 = .ok [DbVal.fin 0] ∧
    find_fft ([(1 : ℂ)].map (fun z => ((10 : ℝ) : ℂ) * z)) 1 = .ok [DbVal.fin 10] ∧
    DbVal.fin (10 : ℝ) ≠ DbVal.fin (0 + 20 * Real.logb 10 10) := by
  have h10 : Real.logb 10 10 = 1 := Real.logb_self_eq_one (by norm_num)
  refine ⟨?_, ?_, ?_⟩
  · rw [find_fft_singleton]
    norm_num [dbOf_of_pos 1 1 one_pos one_ne_zero, Real.logb_one]
  · have : ([(1 : ℂ)].map (fun z => ((10 : ℝ) : ℂ) * z)) = [((10 : ℝ) : ℂ)] := by
      simp
    rw [this, find_fft_singleton, Complex.abs_ofReal]
    rw [show |(10 : ℝ)| = 10 from abs_of_pos (by norm_num)]
    rw [dbOf_of_pos 10 1 (by norm_num) one_ne_zero]
    norm_num [h10]
  · simp only [ne_eq, DbVal.fin.injEq, h10]
    norm_num

/-- C4 witness: the amended scaling law applied at samples `[1]`, window
length `1`, scale `10`. -/
theorem c4_scaling_amended_witness :
    ∃ l, find_fft [(1 : ℂ)] 1 = .ok l ∧
      find_fft ([(1 : ℂ)].map (fun z => ((10 : ℝ) : ℂ) * z)) 1 =
        .ok (l.map (fun v => v.addConst (10 * Real.logb 10 10))) :=
  c4_scaling_amended [(1 : ℂ)] 1 10 (by simp) (by norm_num) (by norm_num)

lemma padTrunc_eq_sized (s : List ℂ) (n : ℕ) :
    padTrunc s n = if n ≤ s.length then s.take n
      else s ++ List.replicate (n - s.length) 0 := by
  unfold padTrunc
  split
  · next h =>
      rw [Nat.sub_eq_zero_of_le h]
      simp
  · next h =>
      rw [List.take_of_length_le (by omega)]

lemma fftshift_eq_rotate {α : Type} (x : List α) :
    fftshift x = x.rotate (x.length - x.length / 2) := by
  rw [List.rotate_eq_drop_append_take (by omega)]
  rfl

lemma fftshift_eq_rotate_of_length {α : Type} (x : List α) (n : ℕ) (h : x.length = n) :
    fftshift x = x.rotate (n - n / 2) := by
  subst h
  exact fftshift_eq_rotate x

lemma dbOf_eq_spec_db (m : ℝ) (hm : 0 ≤ m) (len : ℕ) (hlen : len ≠ 0) :
    dbOf m len = if m / (len : ℝ) = 0 then DbVal.neginf
      else DbVal.fin (10 * Real.logb 10 (m / (len : ℝ))) := by
  rcases eq_or_lt_of_le hm with h0 | hpos
  · rw [← h0, dbOf_zero_of_pos_len _ hlen]
    simp
  · have hne : m / (len : ℝ) ≠ 0 :=
      div_ne_zero hpos.ne' (by exact_mod_cast hlen)
    rw [dbOf_of_pos _ _ hpos hlen, if_neg hne]

/-- C3: on every non-empty input and positive window length, `find_fft`
computes exactly the spec's pipeline: size the transform to the window
length, DFT, rotate the zero-frequency component to index
`window_length / 2`, take magnitudes, divide by the original (unpadded)
sample count, and convert with `10 * log10`. -/
theorem c3_matches_spec_pipeline (s : List ℂ) (n : ℕ) (hs : s ≠ []) (hn : 1 ≤ n) :
    find_fft s (n : ℤ) = .ok (compute_spectrum_spec s n) := by
  have hlen : s.length ≠ 0 := fun h => hs (List.length_eq_zero.mp h)
  have hX : (dft (padTrunc s n)).length = n := by
    rw [length_dft, length_padTrunc]
  rw [find_fft_eq_ok _ _ (by exact_mod_cast hn), Int.toNat_ofNat]
  simp only [compute_spectrum_spec]
  rw [← padTrunc_eq_sized, fftshift_eq_rotate_of_length (dft (padTrunc s n)) n hX,
    List.map_map, List.map_map]
  refine congrArg Except.ok (List.map_congr_left fun z _ => ?_)
  exact dbOf_eq_spec_db (Complex.abs z) (Complex.abs.nonneg z) s.length hlen

/-- C3 witness: the pipeline equality applied at samples `[1]` and window
length `2`, a case where the window length differs from the sample count. -/
theorem c3_matches_spec_pipeline_witness :
    find_fft [(1 : ℂ)] ((2 : ℕ) : ℤ) = .ok (compute_spectrum_spec [(1 : ℂ)] 2) :=
  c3_matches_spec_pipeline [(1 : ℂ)] 2 (by simp) (by norm_num)

lemma padTrunc_eq_zeroPad (s : List ℂ) (n : ℕ) (h : s.length ≤ n) :
    padTrunc s n = zeroPad s n := by
  unfold padTrunc zeroPad
  rw [List.take_of_length_le h]

/-- C5: for a window length strictly greater than the sample count, the
sizing step behaves as explicit zero padding: the returned spectrum is the
centered decibel spectrum of the zero-padded list, still normalised by the
original sample count. -/
theorem c5_zero_padding (s : List ℂ) (N : ℕ) (hs : s ≠ []) (hN : s.length < N) :
    find_fft s (N : ℤ) = .ok ((fftshift (dft (zeroPad s N))).map
      (fun c => dbOf (Complex.abs c) s.length)) := by
  rw [find_fft_eq_ok _ _ (by exact_mod_cast (by omega : 1 ≤ N)), Int.toNat_ofNat,
    padTrunc_eq_zeroPad s N (by omega)]

/-- C5 witness: the zero-padding equality applied at samples `[1]` and
window length `2`. -/
theorem c5_zero_padding_witness :
    find_fft [(1 : ℂ)] ((2 : ℕ) : ℤ) = .ok ((fftshift (dft (zeroPad [(1 : ℂ)] 2))).map
      (fun c => dbOf (Complex.abs c) [(1 : ℂ)].length)) :=
  c5_zero_padding [(1 : ℂ)] 2 (by simp) (by norm_num)

/-- C8: wherever the shifted transform has magnitude exactly zero, the
spectrum entry is minus infinity, and the call still returns a result
rather than raising an error. -/
theorem c8_zero_magnitude_neginf (s : List ℂ) (n : ℤ) (hs : s ≠ []) (hn : 1 ≤ n) :
    ∃ l, find_fft s n = .ok l ∧ ∀ i, i < l.length →
      Complex.abs ((fftshift (dft (padTrunc s n.toNat))).getD i 0) = 0 →
      l.getD i DbVal.nan = DbVal.neginf := by
  have hlen : s.length ≠ 0 := fun h => hs (List.length_eq_zero.mp h)
  refine ⟨_, find_fft_eq_ok s n hn, fun i hi habs => ?_⟩
  rw [List.length_map] at hi
  rw [List.getD_eq_getElem _ _ hi] at habs
  rw [List.getD_eq_getElem _ _ (by simpa using hi), List.getElem_map, habs,
    dbOf_zero_of_pos_len _ hlen]

/-- C8 witness: applied at the alternating input `[1, -1, 1, -1]` with
window length four, whose shifted transform is zero away from its first
entry. -/
theorem c8_zero_magnitude_neginf_witness :
    ∃ l, find_fft [(1 : ℂ), -1, 1, -1] 4 = .ok l ∧ ∀ i, i < l.length →
      Complex.abs ((fftshift (dft (padTrunc [(1 : ℂ), -1, 1, -1] (4 : ℤ).toNat))).getD i 0) = 0 →
      l.getD i DbVal.nan = DbVal.neginf :=
  c8_zero_magnitude_neginf [(1 : ℂ), -1, 1, -1] 4 (by simp) (by norm_num)

lemma exp_neg_half_pi_I :
    Complex.exp (((-(Real.pi / 2) : ℝ) : ℂ) * Complex.I) = -Complex.I := by
  rw [Complex.exp_mul_I, ← Complex.ofReal_cos, ← Complex.ofReal_sin,
    Real.cos_neg, Real.sin_neg, Real.cos_pi_div_two, Real.sin_pi_div_two]
  push_cast
  ring

lemma dft4_term (k j : ℕ) :
    Complex.exp (-(2 * (Real.pi : ℂ) * Complex.I * (k : ℂ) * (j : ℂ)) / ((4 : ℕ) : ℂ)) =
      (-Complex.I) ^ (k * j) := by
  have h : (-(2 * (Real.pi : ℂ) * Complex.I * (k : ℂ) * (j : ℂ)) / ((4 : ℕ) : ℂ)) =
      ((k * j : ℕ) : ℂ) * (((-(Real.pi / 2) : ℝ) : ℂ) * Complex.I) := by
    push_cast
    ring
  rw [h, Complex.exp_nat_mul, exp_neg_half_pi_I]

lemma dftEntry_four (x0 x1 x2 x3 : ℂ) (k : ℕ) :
    dftEntry [x0, x1, x2, x3] k =
      x0 + x1 * (-Complex.I) ^ k + x2 * (-Complex.I) ^ (2 * k) +
        x3 * (-Complex.I) ^ (3 * k) := by
  unfold dftEntry
  rw [show ([x0, x1, x2, x3] : List ℂ).length = 4 from rfl]
  rw [Finset.sum_range_succ, Finset.sum_range_succ, Finset.sum_range_succ,
    Finset.sum_range_one]
  simp only [List.getD_cons_zero, List.getD_cons_succ]
  rw [dft4_term k 0, dft4_term k 1, dft4_term k 2, dft4_term k 3,
    Nat.mul_zero, Nat.mul_one, pow_zero, mul_one]
  rw [show k * 2 = 2 * k from Nat.mul_comm k 2, show k * 3 = 3 * k from Nat.mul_comm k 3]

lemma negI_sq : (-Complex.I) ^ 2 = -1 := by
  rw [neg_sq, Complex.I_sq]

lemma dft_four (x0 x1 x2 x3 : ℂ) :
    dft [x0, x1, x2, x3] =
      [x0 + x1 + x2 + x3,
       x0 - x1 * Complex.I - x2 + x3 * Complex.I,
       x0 - x1 + x2 - x3,
       x0 + x1 * Complex.I - x2 - x3 * Complex.I] := by
  have h3 : (-Complex.I) ^ 3 = Complex.I := by
    rw [pow_succ, negI_sq]
    ring
  have h4 : (-Complex.I) ^ 4 = 1 := by
    rw [show 4 = 2 * 2 from rfl, pow_mul, negI_sq]
    norm_num
  have h6 : (-Complex.I) ^ 6 = -1 := by
    rw [show 6 = 2 * 3 from rfl, pow_mul, negI_sq]
    norm_num
  have h9 : (-Complex.I) ^ 9 = -Complex.I := by
    rw [show 9 = 8 + 1 from rfl, pow_succ, show 8 = 2 * 4 from rfl, pow_mul, negI_sq]
    norm_num
  unfold dft
  rw [show ([x0, x1, x2, x3] : List ℂ).length = 4 from rfl,
    show List.range 4 = [0, 1, 2, 3] from rfl]
  simp only [List.map_cons, List.map_nil]
  rw [dftEntry_four, dftEntry_four, dftEntry_four, dftEntry_four]
  norm_num [h3, h4, h6, h9, negI_sq]
  exact ⟨by ring, by ring, by ring⟩

lemma padTrunc_four (x0 x1 x2 x3 : ℂ) : padTrunc [x0, x1, x2, x3] 4 = [x0, x1, x2, x3] := by
  simp [padTrunc]

lemma fftshift_four {α : Type} (a b c d : α) : fftshift [a, b, c, d] = [c, d, a, b] := by
  simp [fftshift]

lemma dbOf_four_four : dbOf (Complex.abs 4) 4 = DbVal.fin 0 := by
  rw [show Complex.abs 4 = 4 from Complex.abs_ofNat 4]
  rw [dbOf_of_pos 4 4 (by norm_num) (by norm_num)]
  norm_num [Real.logb_one]

lemma dbOf_abs_zero_four : dbOf (Complex.abs 0) 4 = DbVal.neginf := by
  rw [map_zero, dbOf_zero_of_pos_len 4 (by norm_num)]

lemma fftshift_getD_half {α : Type} (x : List α) (d : α) (h : 0 < x.length) :
    (fftshift x).getD (x.length / 2) d = x.getD 0 d := by
  unfold fftshift
  rw [List.getD_append_right _ _ _ _ (by rw [List.length_drop]; omega),
    List.length_drop,
    show x.length / 2 - (x.length - (x.length - x.length / 2)) = 0 by omega]
  rw [List.getD_eq_getElem _ _ (by rw [List.length_take]; omega),
    List.getD_eq_getElem _ _ h]
  simp

lemma fftshift_getD_half_of_length {α : Type} (x : List α) (d : α) (n : ℕ)
    (h : x.length = n) (hp : 0 < n) :
    (fftshift x).getD (n / 2) d = x.getD 0 d := by
  subst h
  exact fftshift_getD_half x d hp

lemma find_fft_dc_four :
    find_fft [(1 : ℂ), 1, 1, 1] 4 =
      .ok [DbVal.neginf, DbVal.neginf, DbVal.fin 0, DbVal.neginf] := by
  have hd : dft [(1 : ℂ), 1, 1, 1] = [4, 0, 0, 0] := by
    rw [dft_four]
    norm_num
  rw [find_fft_eq_ok _ _ (by norm_num), show (4 : ℤ).toNat = 4 from rfl,
    padTrunc_four, hd, fftshift_four]
  simp only [List.map_cons, List.map_nil, List.length_cons, List.length_nil]
  rw [dbOf_four_four, dbOf_abs_zero_four]

/-- C6: `find_fft` places the zero-frequency transform coefficient at output
index `window_length / 2`; concretely, for the constant input `[1, 1, 1, 1]`
with window length four, the output is `0` dB at index two and minus
infinity elsewhere, so the peak (the only non-minus-infinity value) sits at
index two. -/
theorem c6_zero_frequency_centered :
    (∀ (s : List ℂ) (n : ℤ), 1 ≤ n → ∃ l, find_fft s n = .ok l ∧
      l.getD (n.toNat / 2) DbVal.nan =
        dbOf (Complex.abs ((dft (padTrunc s n.toNat)).getD 0 0)) s.length) ∧
    (find_fft [(1 : ℂ), 1, 1, 1] 4 =
        .ok [DbVal.neginf, DbVal.neginf, DbVal.fin 0, DbVal.neginf] ∧
      ∀ i, i < 4 → i ≠ 2 →
        DbVal.lt
          (([DbVal.neginf, DbVal.neginf, DbVal.fin 0, DbVal.neginf]).getD i DbVal.nan)
          (([DbVal.neginf, DbVal.neginf, DbVal.fin 0, DbVal.neginf]).getD 2 DbVal.nan)) := by
  refine ⟨fun s n hn => ?_, find_fft_dc_four, fun i h1 h2 => ?_⟩
  · have hXlen : (dft (padTrunc s n.toNat)).length = n.toNat := by
      rw [length_dft, length_padTrunc]
    have hXpos : 0 < (dft (padTrunc s n.toNat)).length := by omega
    have hhalf : n.toNat / 2 < (fftshift (dft (padTrunc s n.toNat))).length := by
      rw [length_fftshift]
      omega
    refine ⟨_, find_fft_eq_ok s n hn, ?_⟩
    rw [List.getD_eq_getElem _ _ (by simpa using hhalf), List.getElem_map]
    rw [← List.getD_eq_getElem _ (0 : ℂ) hhalf,
      fftshift_getD_half_of_length _ _ _ hXlen (by omega)]
  · interval_cases i
    · exact trivial
    · exact trivial
    · exact absurd rfl h2
    · exact trivial

/-- C6 witness: the centering law applied at samples `[1]`, window length
two: the output at index one is the dB value of the zero-frequency
coefficient. -/
theorem c6_zero_frequency_centered_witness :
    ∃ l, find_fft [(1 : ℂ)] 2 = .ok l ∧
      l.getD ((2 : ℤ).toNat / 2) DbVal.nan =
        dbOf (Complex.abs ((dft (padTrunc [(1 : ℂ)] (2 : ℤ).toNat)).getD 0 0))
          [(1 : ℂ)].length :=
  c6_zero_frequency_centered.1 [(1 : ℂ)] 2 (by norm_num)

/-- C7: for the alternating input `[1, -1, 1, -1]` with window length four,
the transform before shifting is `[0, 0, 4, 0]`, and the returned spectrum
has its dominant bin at index zero with the exact value
`10 * log10 (4 / 4) = 0` dB and minus infinity at every other index. -/
theorem c7_alternating_input :
    dft (padTrunc [(1 : ℂ), -1, 1, -1] 4) = [0, 0, 4, 0] ∧
    find_fft [(1 : ℂ), -1, 1, -1] 4 =
      .ok [DbVal.fin 0, DbVal.neginf, DbVal.neginf, DbVal.neginf] := by
  have hd : dft [(1 : ℂ), -1, 1, -1] = [0, 0, 4, 0] := by
    rw [dft_four]
    norm_num
  constructor
  · rw [padTrunc_four, hd]
  · rw [find_fft_eq_ok _ _ (by norm_num), show (4 : ℤ).toNat = 4 from rfl,
      padTrunc_four, hd, fftshift_four]
    simp only [List.map_cons, List.map_nil, List.length_cons, List.length_nil]
    rw [dbOf_four_four, dbOf_abs_zero_four]

lemma tsStep_out_of_range (x y : List (List ℝ)) (i : ℕ) (hi : 1 ≤ i) :
    tsStep x y ["continuous"] i = .error .indexError := by
  obtain ⟨j, rfl⟩ : ∃ j, i = j + 1 := ⟨i - 1, by omega⟩
  unfold tsStep
  rfl

/-- C9: with more than one series and the default style list
`["continuous"]`, the lookup `line[i]` for any `i ≥ 1` runs past the end of
the singleton default, so the whole call fails with IndexError. -/
theorem c9_default_line_indexerror :
    (∀ (x y : List (List ℝ)) (i : ℕ), 1 ≤ i →
      tsStep x y ["continuous"] i = .error .indexError) ∧
    (∀ (t : String) (x y : List (List ℝ)), 1 < x.length → y.length = x.length →
      plot_timeseries t x y ["continuous"] = .error .indexError) := by
  refine ⟨tsStep_out_of_range, fun t x y hx hxy => ?_⟩
  match x, hx with
  | x0 :: x1 :: xs, _ =>
    match y, hxy with
    | y0 :: ys, _ =>
      show tsRun _ _ _ (List.range (xs.length + 1 + 1)) = _
      rw [List.range_succ_eq_map, List.range_succ_eq_map, List.map_cons]
      rfl

/-- C9 witness: a concrete call with two series and the default style list
fails with IndexError. -/
theorem c9_default_line_indexerror_witness :
    plot_timeseries "two series" [[(0 : ℝ)], [0]] [[(0 : ℝ)], [0]] ["continuous"] =
      .error .indexError :=
  c9_default_line_indexerror.2 "two series" [[(0 : ℝ)], [0]] [[(0 : ℝ)], [0]]
    (by norm_num) (by norm_num)

/-- C10: when `plot_response` is called with `xlim = none` (the default),
the x-axis limits handed to the renderer are `(0, fs / 2)`: lower limit
zero, upper limit the Nyquist frequency. -/
theorem c10_default_xlim (fs : ℝ) (w : List ℝ) (h : List ℂ) :
    (plot_response fs w h none).xlim = (0, fs / 2) := rfl

end HelperFunctions
